import Mathlib

/-!
Verification of the rule-matching and action-dispatch core of the
openshift/autoheal repository against its natural-language specification.

The Go sources are shallowly embedded: each Go function the claims depend
on is translated into an executable Lean definition that follows the source
line by line.  Machine time stamps and durations are modelled as `Int`
(Go's `time.Time`/`time.Duration` arithmetic via `now.Sub(stamp)`), maps as
association lists, and fallible or panicking code returns `Option`/`Except`
(`none` models a Go runtime panic such as an out-of-range slice index).
-/

namespace AutohealProof

namespace Memory

/-- Embeds `ShortTermCell` of pkg/memory/short_term.go: the stored item and
the time the cell was created or last refreshed (`stamp`). -/
structure Cell (α : Type) where
  item : α
  stamp : Int
  deriving DecidableEq, Repr

/-- Embeds `ShortTermMemory`: the configured duration and the list of cells
(`m.cells`), oldest first by construction order. -/
structure Mem (α : Type) where
  duration : Int
  cells : List (Cell α)
  deriving DecidableEq, Repr

/-- Embeds the in-place copy performed by
`m.cells = append(m.cells[:idx], m.cells[idx+1:]...)` on the shared backing
array: entries `idx+1 .. len-1` move down one position, every other entry of
the backing array keeps its value.  The array length never changes. -/
def shiftDown {α : Type} (a : List (Option (Cell α))) (idx len : Nat) :
    List (Option (Cell α)) :=
  (List.range a.length).map fun j =>
    if idx ≤ j ∧ j + 1 < len then a.getD (j + 1) none else a.getD j none

/-- Embeds the `for idx, cell := range m.cells` loop of `purgeExpiredCells`
(pkg/memory/short_term.go).  Go evaluates the range expression once, so the
loop visits positions `0 .. n-1` of the ORIGINAL slice header while the
removals mutate the shared backing array `a` and shrink the live length
`len`.  `fuel` counts the remaining range iterations (initially `n`).
`none` models a runtime panic: either dereferencing a nil cell pointer or
the out-of-range write `m.cells[idx] = nil` when `idx ≥ len`. -/
def purgeLoop {α : Type} (dur now : Int) :
    Nat → List (Option (Cell α)) → Nat → Nat →
    Option (List (Option (Cell α)) × Nat)
  | 0, a, len, _ => some (a, len)
  | fuel + 1, a, len, idx =>
    match a[idx]? with
    | none => some (a, len)
    | some none => none
    | some (some cell) =>
      if dur ≤ now - cell.stamp then
        if idx < len then
          purgeLoop dur now fuel (shiftDown (a.set idx none) idx len)
            (len - 1) (idx + 1)
        else none
      else some (a, len)

/-- Collects the live region of the backing array back into a plain cell
list; `none` if a live slot holds a nil pointer (such a slot would make the
next `findMatchingCell` dereference nil). -/
def collectCells {α : Type} : List (Option (Cell α)) → Option (List (Cell α))
  | [] => some []
  | none :: _ => none
  | some c :: rest => (collectCells rest).map (c :: ·)

/-- Embeds `purgeExpiredCells`: runs the range loop over the cells and
returns the remaining live cells, or `none` when the loop panics. -/
def purgeExpiredCells {α : Type} (dur : Int) (cells : List (Cell α))
    (now : Int) : Option (List (Cell α)) :=
  match purgeLoop dur now cells.length (cells.map some) cells.length 0 with
  | none => none
  | some (a, len) => collectCells (a.take len)

/-- Embeds `findMatchingCell`: the first cell whose item is structurally
(deep) equal to the given item — `reflect.DeepEqual` on the stored values is
modelled by decidable equality on `α`. -/
def findMatchingCell {α : Type} [DecidableEq α] (cells : List (Cell α))
    (item : α) : Option (Cell α) :=
  cells.find? fun c => decide (c.item = item)

/-- Helper for `add`: refresh the stamp of the first matching cell in place
(the cell keeps its position in the list). -/
def refreshFirst {α : Type} [DecidableEq α] :
    List (Cell α) → α → Int → List (Cell α)
  | [], _, _ => []
  | c :: rest, item, now =>
    if c.item = item then { c with stamp := now } :: rest
    else refreshFirst rest item now |>.cons c

/-- Embeds `Add`: if a structurally equal cell exists its stamp is set to
`now` (it stays where it is); otherwise a fresh cell is appended at the end.
`Add` performs no purge. -/
def add {α : Type} [DecidableEq α] (m : Mem α) (item : α) (now : Int) :
    Mem α :=
  if (findMatchingCell m.cells item).isSome then
    { m with cells := refreshFirst m.cells item now }
  else
    { m with cells := m.cells ++ [⟨item, now⟩] }

/-- Embeds `Has`: purge, then report whether a structurally equal cell
remains.  `none` models the purge panicking. -/
def has {α : Type} [DecidableEq α] (m : Mem α) (item : α) (now : Int) :
    Option Bool :=
  (purgeExpiredCells m.duration m.cells now).map
    fun cs => (findMatchingCell cs item).isSome

/-- Embeds `Len`: purge, then the number of remaining cells.  `none` models
the purge panicking. -/
def lenOp {α : Type} (m : Mem α) (now : Int) : Option Nat :=
  (purgeExpiredCells m.duration m.cells now).map List.length

/-- Embeds `Clean`: purge, keeping the surviving cells.  `none` models the
purge panicking. -/
def clean {α : Type} (m : Mem α) (now : Int) : Option (Mem α) :=
  (purgeExpiredCells m.duration m.cells now).map
    fun cs => { m with cells := cs }

/-- The spec's invariant on a cell list: stamps are monotonically
non-decreasing, oldest first. -/
def stampsSorted {α : Type} : List (Cell α) → Bool
  | [] => true
  | [_] => true
  | c1 :: c2 :: rest =>
    decide (c1.stamp ≤ c2.stamp) && stampsSorted (c2 :: rest)

end Memory

end AutohealProof

namespace AutohealProof

namespace Data

/-- Embeds the parts of `meta.ObjectMeta` the core reads: the rule name and
the resource version used by the idempotent upsert. -/
structure ObjectMeta where
  name : String
  resourceVersion : String
  deriving DecidableEq, Repr

/-- Embeds `AWXJobAction` of pkg/apis/autoheal (types.go): the AWX job
template name and the extra variables passed to the job. -/
structure AWXJobAction where
  template : String
  extraVars : String
  deriving DecidableEq, Repr

/-- Opaque embedding of a `k8s.io/api/batch/v1.Job` value: the dispatch
core only copies, compares and forwards it, so its payload is modelled as
an uninterpreted string. -/
structure BatchJob where
  spec : String
  deriving DecidableEq, Repr

/-- Embeds `HealingRule` of pkg/apis/autoheal: object metadata, the label
and annotation patterns (Go maps modelled as association lists), and the
two optional action fields. -/
structure HealingRule where
  meta : ObjectMeta
  labels : List (String × String)
  annotations : List (String × String)
  awxJob : Option AWXJobAction
  batchJob : Option BatchJob
  deriving DecidableEq, Repr

/-- Embeds `alertmanager.Alert`: status, labels and annotations.  The
alert's timestamps are not read by the matching and dispatch core. -/
structure Alert where
  status : String
  labels : List (String × String)
  annotations : List (String × String)
  deriving DecidableEq, Repr

/-- Embeds `Alert.Name()`: `a.Labels["alertname"]`, the empty string when
the key is missing (Go's map zero value). -/
def Alert.name (a : Alert) : String :=
  (a.labels.lookup "alertname").getD ""

end Data

namespace Matcher

/-- Embeds the `for key, pattern := range patterns` loop of
`checkMap` (receiver alerts_worker.go, src/unnamed/part_002).  The regex
test `regexp.MatchString(pattern, value)` is the parameter `rmatch`
(`Except.error` models its compile error); the loop returns false at the
first absent key or non-matching value, and propagates the first match
error. -/
def checkMapLoop (rmatch : String → String → Except String Bool)
    (values : List (String × String)) :
    List (String × String) → Except String Bool
  | [] => .ok true
  | (key, pat) :: rest =>
    match values.lookup key with
    | none => .ok false
    | some value =>
      match rmatch pat value with
      | .error e => .error e
      | .ok false => .ok false
      | .ok true => checkMapLoop rmatch values rest

/-- Embeds `checkMap`: with no patterns the result is true; with patterns
but no values the result is false; otherwise the loop decides. -/
def checkMap (rmatch : String → String → Except String Bool)
    (values patterns : List (String × String)) : Except String Bool :=
  if patterns.isEmpty then .ok true
  else if values.isEmpty then .ok false
  else checkMapLoop rmatch values patterns

/-- Embeds `checkRule`: label patterns against alert labels, then (only on
a true result) annotation patterns against alert annotations; a false
result or an error short-circuits. -/
def checkRule (rmatch : String → String → Except String Bool)
    (rule : Data.HealingRule) (alert : Data.Alert) : Except String Bool :=
  match checkMap rmatch alert.labels rule.labels with
  | .error e => .error e
  | .ok false => .ok false
  | .ok true => checkMap rmatch alert.annotations rule.annotations

/-- The spec's reading of one map check: every pattern key is present among
the values and its value satisfies the pattern. -/
def mapCond (rmatch : String → String → Except String Bool)
    (values patterns : List (String × String)) : Prop :=
  ∀ kp ∈ patterns, ∃ v, values.lookup kp.1 = some v ∧
    rmatch kp.2 v = Except.ok true

/-- The spec's reading of a whole rule match: the label condition and the
annotation condition both hold. -/
def ruleCond (rmatch : String → String → Except String Bool)
    (rule : Data.HealingRule) (alert : Data.Alert) : Prop :=
  mapCond rmatch alert.labels rule.labels ∧
    mapCond rmatch alert.annotations rule.annotations

end Matcher

namespace Dispatch

/-- The action value `runRule` deep-copies and then processes: the tagged
union of the two optional rule actions. -/
inductive Action where
  | awxJob (a : Data.AWXJobAction)
  | batchJob (j : Data.BatchJob)
  deriving DecidableEq, Repr

/-- Embeds the action-selection chain at the top of `runRule`
(src/unnamed/part_002): `rule.AWXJob` is deep-copied when present, else
`rule.BatchJob`; with neither, the rule has no effect. -/
def ruleAction (rule : Data.HealingRule) : Option Action :=
  match rule.awxJob with
  | some a => some (Action.awxJob a)
  | none =>
    match rule.batchJob with
    | some j => some (Action.batchJob j)
    | none => none

/-- Embeds `reflect.TypeOf(action).Elem().Name()`: the Go type names of
the two action kinds. -/
def actionTypeName : Action → String
  | .awxJob _ => "AWXJobAction"
  | .batchJob _ => "Job"

/-- Observable steps of `runRule` in execution order: the `requested`
metric increment, the expiring-memory skip, the dispatch to an action
runner (with its success), and the `actionMemory.Add` of the expanded
action. -/
inductive Event where
  | requested (actionType ruleName alertName : String)
  | memorySkip (ruleName : String)
  | dispatched (succeeded : Bool)
  | remembered (a : Action)
  deriving DecidableEq, Repr

/-- The collaborators `runRule` drives, with the expiring memory's state
`σ` threaded through: `expand` is the object-template build-and-process
step (`Except.error` models a template failure), `memHas`/`memAdd` the
expiring memory calls, and `runner` the action runner (`some` is the
dispatch error). -/
structure Collab (σ : Type) where
  expand : Action → Except String Action
  memHas : σ → Action → Bool
  memAdd : σ → Action → σ
  runner : Action → Option String

/-- Embeds `runRule` (src/unnamed/part_002, lines 172-244): pick the
action, increment the requested metric, expand the templates (an error
returns from the rule), consult the expiring memory (a hit skips dispatch
without an Add), otherwise dispatch and remember the action even when the
dispatch failed.  Returns the emitted events, the new memory state and the
returned error. -/
def runRule {σ : Type} (C : Collab σ) (s : σ) (rule : Data.HealingRule)
    (alert : Data.Alert) : List Event × σ × Option String :=
  match ruleAction rule with
  | none => ([], s, none)
  | some action =>
    let req := Event.requested (actionTypeName action) rule.meta.name
      ((alert.labels.lookup "alertname").getD "")
    match C.expand action with
    | .error e => ([req], s, some e)
    | .ok expanded =>
      if C.memHas s expanded then
        ([req, Event.memorySkip rule.meta.name], s, none)
      else
        ([req, Event.dispatched (C.runner expanded).isNone,
            Event.remembered expanded],
          C.memAdd s expanded, C.runner expanded)

/-- Embeds the rule-activation scan of `startHealing`: a rule is activated
when `checkRule` reports a match; a matching error is logged and that rule
is skipped without aborting the scan. -/
def activatedRules (rmatch : String → String → Except String Bool)
    (rules : List Data.HealingRule) (alert : Data.Alert) :
    List Data.HealingRule :=
  rules.filter fun r =>
    match Matcher.checkRule rmatch r alert with
    | .ok true => true
    | _ => false

/-- Embeds the `for _, rule := range activated` loop of `startHealing`:
run each activated rule in order; a non-nil `runRule` error is returned
immediately, leaving the remaining activated rules unprocessed. -/
def runActivated {σ : Type} (C : Collab σ) :
    σ → List Data.HealingRule → Data.Alert → List Event × σ × Option String
  | s, [], _ => ([], s, none)
  | s, r :: rest, alert =>
    match runRule C s r alert with
    | (evs, s1, some e) => (evs, s1, some e)
    | (evs, s1, none) =>
      let (evs2, s2, err2) := runActivated C s1 rest alert
      (evs ++ evs2, s2, err2)

/-- Embeds `startHealing`: activate the matching rules, then execute
them. -/
def startHealing {σ : Type} (rmatch : String → String → Except String Bool)
    (C : Collab σ) (s : σ) (rules : List Data.HealingRule)
    (alert : Data.Alert) : List Event × σ × Option String :=
  runActivated C s (activatedRules rmatch rules alert) alert

/-- True exactly for the `requested` metric events of a trace. -/
def isRequested : Event → Bool
  | .requested _ _ _ => true
  | _ => false

/-- Number of `requested` metric increments in a trace. -/
def requestedCount (evs : List Event) : Nat :=
  (evs.filter isRequested).length

end Dispatch

namespace RuleStore

/-- Embeds `sync.Map.Store` on the rules cache: replace the entry carrying
the given name, or append a new one. -/
def storeSet {R : Type} : List (String × R) → String → R → List (String × R)
  | [], n, r => [(n, r)]
  | (k, v) :: rest, n, r =>
    if k = n then (n, r) :: rest else (k, v) :: storeSet rest n r

/-- Embeds `processAddedRule` (pkg/receiver/rules_worker.go): insert when
the name is absent from the cache; replace when the stored rule's resource
version differs; leave the cache unchanged when it is identical. -/
def processAddedRule (cache : List (String × Data.HealingRule))
    (rule : Data.HealingRule) : List (String × Data.HealingRule) :=
  match cache.lookup rule.meta.name with
  | none => storeSet cache rule.meta.name rule
  | some existing =>
    if rule.meta.resourceVersion ≠ existing.meta.resourceVersion then
      storeSet cache rule.meta.name rule
    else cache

end RuleStore

namespace ObjTemplate

mutual

/-- The universe of `reflect.Value`s the object template walks
(cmd/autoheal/object_template.go): strings, maps with string keys, structs,
pointers (nil or not), the invalid zero `reflect.Value`, and the scalar
kinds the default branch leaves untouched.  The `Array` and `Slice` kinds
are "Not implemented yet" in the source and behave like the default
branch. -/
inductive GoValue : Type where
  | str (s : String)
  | mapv (entries : GoEntries)
  | structv (fields : GoFields)
  | ptrNil
  | ptrTo (v : GoValue)
  | invalid
  | other

/-- Entries of a Go `map[string]T` value, in iteration order. -/
inductive GoEntries : Type where
  | nil
  | cons (key : String) (value : GoValue) (rest : GoEntries)

/-- Fields of a Go struct value, in declaration order. -/
inductive GoFields : Type where
  | nil
  | cons (field : GoValue) (rest : GoFields)

end

mutual

/-- Embeds `processValue` of cmd/autoheal/object_template.go.  The `render`
parameter is `processString` minus the write-back (parse and execute the
string as a template; `Except.error` is a template failure).  The result is
`(newSelf, output, err)`: `newSelf` is what the walked storage holds after
the call (mutations reach it only through reference types, i.e. map
entries updated by `SetMapIndex`), `output` is the returned
`reflect.Value`, and `err` the named error return.  In the string case the
source declares a fresh `err` with `:=`, shadowing the named return, so a
render failure leaves the outer error nil and the output unchanged; no
case writes a processed string back into a struct field or pointee. -/
def processValue (render : String → Except String String) :
    GoValue → GoValue × GoValue × Option String
  | .str s =>
    (.str s,
      (match render s with
      | .ok text => .str text
      | .error _ => .str s),
      none)
  | .mapv es =>
    match processEntries render es with
    | (nes, err) => (.mapv nes, .mapv nes, err)
  | .structv fs =>
    match processFields render fs with
    | (nfs, err) => (.structv nfs, .structv nfs, err)
  | .ptrNil => (.ptrNil, .invalid, none)
  | .ptrTo v =>
    match processValue render v with
    | (nv, outv, e) => (.ptrTo nv, outv, e)
  | .invalid => (.invalid, .invalid, none)
  | .other => (.other, .other, none)

/-- Embeds the `for _, k := range output.MapKeys()` loop of the map case:
each value is processed and written back with `SetMapIndex`; an error
returns before the write-back of the failing entry and leaves the
remaining entries unprocessed. -/
def processEntries (render : String → Except String String) :
    GoEntries → GoEntries × Option String
  | .nil => (.nil, none)
  | .cons k v rest =>
    match processValue render v with
    | (nv, _, some e) => (.cons k nv rest, some e)
    | (_, outv, none) =>
      match processEntries render rest with
      | (nrest, err) => (.cons k outv nrest, err)

/-- Embeds the `for i, n := 0, output.NumField(); ...` loop of the struct
case: each field is processed but the returned output is discarded
(`_, err = t.processValue(output.Field(i), data)`), so a field changes only
through reference types inside it; an error leaves the remaining fields
unprocessed. -/
def processFields (render : String → Except String String) :
    GoFields → GoFields × Option String
  | .nil => (.nil, none)
  | .cons f rest =>
    match processValue render f with
    | (nf, _, some e) => (.cons nf rest, some e)
    | (nf, _, none) =>
      match processFields render rest with
      | (nrest, err) => (.cons nf nrest, err)

end

/-- True for the values of pointer kind. -/
def isPtr : GoValue → Bool
  | .ptrNil => true
  | .ptrTo _ => true
  | _ => false

/-- Embeds `Process` of cmd/autoheal/object_template.go: a non-pointer
argument is rejected; otherwise `processValue` runs and its output is
discarded — the caller observes only the object's storage and the error. -/
def Process (render : String → Except String String) (object : GoValue) :
    GoValue × Option String :=
  if isPtr object then
    match processValue render object with
    | (nv, _, e) => (nv, e)
  else
    (object, some "object must be of pointer type")

end ObjTemplate

namespace Fixtures

/-- A concrete total matcher for instantiations: the pattern matches
exactly its own text (every pattern "compiles", so `Except.error` never
occurs). -/
def rm0 : String → String → Except String Bool :=
  fun p v => Except.ok (decide (p = v))

/-- A firing alert with an `alertname` label and one extra label and
annotation. -/
def alert0 : Data.Alert :=
  ⟨"firing", [("alertname", "NodeDown"), ("severity", "high")],
    [("summary", "node down")]⟩

/-- A rule matching `alertname = NodeDown` with an AWX job action. -/
def rule1 : Data.HealingRule :=
  ⟨⟨"start-node", "1"⟩, [("alertname", "NodeDown")], [],
    some ⟨"Start node", ""⟩, none⟩

/-- A vacuous rule (no label or annotation constraints) with an AWX job
action. -/
def rule2 : Data.HealingRule :=
  ⟨⟨"open-ticket", "1"⟩, [], [], some ⟨"Open ticket", ""⟩, none⟩

/-- Collaborators whose template expansion always fails. -/
def failC : Dispatch.Collab Unit :=
  ⟨fun _ => Except.error "boom", fun _ _ => false, fun s _ => s,
    fun _ => none⟩

/-- Collaborators whose expansion is the identity, whose memory is the
list of added actions, and whose runner succeeds. -/
def okC : Dispatch.Collab (List Dispatch.Action) :=
  ⟨fun a => Except.ok a, fun s a => s.contains a, fun s a => s ++ [a],
    fun _ => none⟩

/-- A concrete renderer for the object-template counterexamples: appends
an exclamation mark, so rendered text always differs from its source. -/
def render0 : String → Except String String :=
  fun s => Except.ok (s ++ "!")

end Fixtures

namespace Matcher

theorem checkMapLoop_ok_true_iff
    (rmatch : String → String → Except String Bool)
    (values patterns : List (String × String))
    (h : ∀ kp ∈ patterns, ∀ v, ∃ b, rmatch kp.2 v = Except.ok b) :
    checkMapLoop rmatch values patterns = Except.ok true ↔
      mapCond rmatch values patterns := by
  induction patterns with
  | nil => simp [checkMapLoop, mapCond]
  | cons kp rest ih =>
    obtain ⟨k, p⟩ := kp
    have hrest : ∀ kp ∈ rest, ∀ v, ∃ b, rmatch kp.2 v = Except.ok b :=
      fun kp hkp v => h kp (List.mem_cons_of_mem _ hkp) v
    simp only [checkMapLoop]
    cases hv : values.lookup k with
    | none =>
      constructor
      · intro hfalse; simp at hfalse
      · intro hcond
        obtain ⟨v, hv', _⟩ := hcond (k, p) (List.mem_cons_self _ _)
        dsimp only at hv'
        rw [hv] at hv'; simp at hv'
    | some v =>
      obtain ⟨b, hb⟩ := h (k, p) (List.mem_cons_self _ _) v
      dsimp only at hb
      simp only [hb]
      cases b with
      | false =>
        constructor
        · intro hfalse; simp at hfalse
        · intro hcond
          obtain ⟨v', hv', hm'⟩ := hcond (k, p) (List.mem_cons_self _ _)
          dsimp only at hv' hm'
          rw [hv] at hv'
          injection hv' with hvv
          subst hvv
          rw [hb] at hm'
          simp at hm'
      | true =>
        rw [ih hrest]
        constructor
        · intro hcond kp hkp
          rcases List.mem_cons.mp hkp with heq | hmem
          · subst heq; exact ⟨v, hv, hb⟩
          · exact hcond kp hmem
        · intro hcond kp hkp
          exact hcond kp (List.mem_cons_of_mem _ hkp)

theorem checkMapLoop_isOk
    (rmatch : String → String → Except String Bool)
    (values patterns : List (String × String))
    (h : ∀ kp ∈ patterns, ∀ v, ∃ b, rmatch kp.2 v = Except.ok b) :
    ∃ b, checkMapLoop rmatch values patterns = Except.ok b := by
  induction patterns with
  | nil => exact ⟨true, rfl⟩
  | cons kp rest ih =>
    obtain ⟨k, p⟩ := kp
    have hrest : ∀ kp ∈ rest, ∀ v, ∃ b, rmatch kp.2 v = Except.ok b :=
      fun kp hkp v => h kp (List.mem_cons_of_mem _ hkp) v
    simp only [checkMapLoop]
    cases hv : values.lookup k with
    | none => exact ⟨false, rfl⟩
    | some v =>
      obtain ⟨b, hb⟩ := h (k, p) (List.mem_cons_self _ _) v
      dsimp only at hb
      simp only [hb]
      cases b with
      | false => exact ⟨false, rfl⟩
      | true => exact ih hrest

theorem checkMap_ok_true_iff
    (rmatch : String → String → Except String Bool)
    (values patterns : List (String × String))
    (h : ∀ kp ∈ patterns, ∀ v, ∃ b, rmatch kp.2 v = Except.ok b) :
    checkMap rmatch values patterns = Except.ok true ↔
      mapCond rmatch values patterns := by
  cases patterns with
  | nil => simp [checkMap, mapCond]
  | cons kp0 rest =>
    cases values with
    | nil =>
      constructor
      · intro hfalse; simp [checkMap] at hfalse
      · intro hcond
        obtain ⟨v, hv', _⟩ := hcond kp0 (List.mem_cons_self _ _)
        simp at hv'
    | cons v0 vrest =>
      have hm : checkMap rmatch (v0 :: vrest) (kp0 :: rest) =
          checkMapLoop rmatch (v0 :: vrest) (kp0 :: rest) := by
        simp [checkMap]
      rw [hm]
      exact checkMapLoop_ok_true_iff rmatch (v0 :: vrest) (kp0 :: rest) h

theorem checkMap_isOk
    (rmatch : String → String → Except String Bool)
    (values patterns : List (String × String))
    (h : ∀ kp ∈ patterns, ∀ v, ∃ b, rmatch kp.2 v = Except.ok b) :
    ∃ b, checkMap rmatch values patterns = Except.ok b := by
  cases patterns with
  | nil => exact ⟨true, rfl⟩
  | cons kp0 rest =>
    cases values with
    | nil => exact ⟨false, rfl⟩
    | cons v0 vrest =>
      have hm : checkMap rmatch (v0 :: vrest) (kp0 :: rest) =
          checkMapLoop rmatch (v0 :: vrest) (kp0 :: rest) := by
        simp [checkMap]
      rw [hm]
      exact checkMapLoop_isOk rmatch (v0 :: vrest) (kp0 :: rest) h

theorem checkRule_ok_true_iff
    (rmatch : String → String → Except String Bool)
    (rule : Data.HealingRule) (alert : Data.Alert)
    (h : ∀ kp ∈ rule.labels ++ rule.annotations, ∀ v,
      ∃ b, rmatch kp.2 v = Except.ok b) :
    checkRule rmatch rule alert = Except.ok true ↔
      ruleCond rmatch rule alert := by
  have hL : ∀ kp ∈ rule.labels, ∀ v, ∃ b, rmatch kp.2 v = Except.ok b :=
    fun kp hkp v => h kp (List.mem_append_left _ hkp) v
  have hA : ∀ kp ∈ rule.annotations, ∀ v, ∃ b, rmatch kp.2 v = Except.ok b :=
    fun kp hkp v => h kp (List.mem_append_right _ hkp) v
  obtain ⟨bl, hbl⟩ := checkMap_isOk rmatch alert.labels rule.labels hL
  simp only [checkRule, hbl]
  cases bl with
  | false =>
    constructor
    · intro hfalse; simp at hfalse
    · intro hcond
      have := (checkMap_ok_true_iff rmatch alert.labels rule.labels hL).mpr
        hcond.1
      rw [hbl] at this; simp at this
  | true =>
    rw [checkMap_ok_true_iff rmatch alert.annotations rule.annotations hA]
    have hl : mapCond rmatch alert.labels rule.labels :=
      (checkMap_ok_true_iff rmatch alert.labels rule.labels hL).mp hbl
    exact ⟨fun hc => ⟨hl, hc⟩, fun hc => hc.2⟩

theorem checkRule_isOk
    (rmatch : String → String → Except String Bool)
    (rule : Data.HealingRule) (alert : Data.Alert)
    (h : ∀ kp ∈ rule.labels ++ rule.annotations, ∀ v,
      ∃ b, rmatch kp.2 v = Except.ok b) :
    ∃ b, checkRule rmatch rule alert = Except.ok b := by
  have hL : ∀ kp ∈ rule.labels, ∀ v, ∃ b, rmatch kp.2 v = Except.ok b :=
    fun kp hkp v => h kp (List.mem_append_left _ hkp) v
  have hA : ∀ kp ∈ rule.annotations, ∀ v, ∃ b, rmatch kp.2 v = Except.ok b :=
    fun kp hkp v => h kp (List.mem_append_right _ hkp) v
  obtain ⟨bl, hbl⟩ := checkMap_isOk rmatch alert.labels rule.labels hL
  simp only [checkRule, hbl]
  cases bl with
  | false => exact ⟨false, rfl⟩
  | true => exact checkMap_isOk rmatch alert.annotations rule.annotations hA

theorem mapCond_congr
    (rmatch : String → String → Except String Bool)
    (values1 values2 patterns : List (String × String))
    (h : ∀ kp ∈ patterns, values2.lookup kp.1 = values1.lookup kp.1) :
    mapCond rmatch values2 patterns ↔ mapCond rmatch values1 patterns := by
  constructor <;> intro hc kp hkp <;> obtain ⟨v, hv, hm⟩ := hc kp hkp
  · exact ⟨v, by rw [← h kp hkp]; exact hv, hm⟩
  · exact ⟨v, by rw [h kp hkp]; exact hv, hm⟩

end Matcher

end AutohealProof

namespace AutohealProof.Memory

/-- C2: the claim says that on a timestamp-sorted cell list the lazy purge
removes exactly the cells whose age `now - stamp` is at least the duration.
The code violates this: with duration 1 at time 5, on the sorted list
`[⟨0,0⟩, ⟨1,0⟩]` (both cells expired) the purge panics with an
out-of-range index (modelled as `none`) instead of removing both, and on
`[⟨0,0⟩, ⟨1,0⟩, ⟨2,5⟩]` it removes only the first expired cell, keeping the
expired `⟨1,0⟩`. -/
theorem purge_not_exact_on_sorted_cells :
    stampsSorted [Cell.mk 0 0, Cell.mk 1 0] = true ∧
    purgeExpiredCells (α := Nat) 1 [Cell.mk 0 0, Cell.mk 1 0] 5 = none ∧
    stampsSorted [Cell.mk 0 0, Cell.mk 1 0, Cell.mk 2 5] = true ∧
    purgeExpiredCells (α := Nat) 1 [Cell.mk 0 0, Cell.mk 1 0, Cell.mk 2 5] 5
      = some [Cell.mk 1 0, Cell.mk 2 5] := by
  refine ⟨rfl, ?_, rfl, ?_⟩ <;> decide

/-- C3: the claim says `Has`, `Len` and `Clean` are total for every sequence
of `Add` calls and every duration, including two or more consecutive expired
cells.  The code violates this: after `Add` of two distinct items with
duration 0 (both cells instantly expired), each of the three operations
panics with an out-of-range slice index (modelled as `none`). -/
theorem ops_not_total_on_consecutive_expired :
    (lenOp (add (add (⟨0, []⟩ : Mem Nat) 0 0) 1 0) 0 = none) ∧
    (has (add (add (⟨0, []⟩ : Mem Nat) 0 0) 1 0) 0 0 = none) ∧
    (clean (add (add (add (⟨3, []⟩ : Mem Nat) 0 0) 1 0) 2 0) 5 = none) := by
  refine ⟨?_, ?_, ?_⟩ <;> decide

/-- C4: the claim says every operation preserves the non-decreasing stamp
order, including `Add` when it refreshes an existing structurally equal
cell.  The code violates this: on the sorted state `[⟨0,0⟩, ⟨1,1⟩]`,
re-adding item 0 at time 2 refreshes the first cell in place, producing
`[⟨0,2⟩, ⟨1,1⟩]`, whose stamps decrease. -/
theorem add_refresh_breaks_stamp_order :
    stampsSorted [Cell.mk 0 0, Cell.mk 1 1] = true ∧
    (add (α := Nat) ⟨10, [Cell.mk 0 0, Cell.mk 1 1]⟩ 0 2).cells
      = [Cell.mk 0 2, Cell.mk 1 1] ∧
    stampsSorted (add (α := Nat) ⟨10, [Cell.mk 0 0, Cell.mk 1 1]⟩ 0 2).cells
      = false := by
  refine ⟨rfl, ?_, ?_⟩ <;> decide

/-- C9: the claim says that with duration > 0, immediately after `Add x`
a `Has` of a structurally equal item returns true.  The code violates this:
with duration 3, after `Add 0`, `Add 1`, `Add 2` at time 0 and a refreshing
`Add 1` at time 5, the call `Has 1` at time 5 panics with an out-of-range
slice index (modelled as `none`) instead of returning true, because the
refresh broke the stamp order and the purge then scans two expired cells
past the shrunken live length. -/
theorem has_after_add_panics :
    has (add (add (add (add (⟨3, []⟩ : Mem Nat) 0 0) 1 0) 2 0) 1 5) 1 5
      = none := by
  decide

end AutohealProof.Memory

namespace AutohealProof.Matcher

/-- C5: for every rule and alert whose rule patterns all compile,
`checkRule` returns true exactly when every label pattern key is present in
the alert's labels with a matching value and likewise for annotations;
a rule with no patterns matches every alert; and alerts agreeing on the
rule's keys get the same result, so extra alert keys never affect it. -/
theorem checkRule_matches_characterization
    (rmatch : String → String → Except String Bool)
    (rule : Data.HealingRule) (alert : Data.Alert)
    (h : ∀ kp ∈ rule.labels ++ rule.annotations, ∀ v,
      ∃ b, rmatch kp.2 v = Except.ok b) :
    (checkRule rmatch rule alert = Except.ok true ↔
      ruleCond rmatch rule alert)
    ∧ (rule.labels = [] → rule.annotations = [] →
        checkRule rmatch rule alert = Except.ok true)
    ∧ ∀ alert2 : Data.Alert,
        (∀ kp ∈ rule.labels,
          alert2.labels.lookup kp.1 = alert.labels.lookup kp.1) →
        (∀ kp ∈ rule.annotations,
          alert2.annotations.lookup kp.1 = alert.annotations.lookup kp.1) →
        checkRule rmatch rule alert2 = checkRule rmatch rule alert := by
  refine ⟨checkRule_ok_true_iff rmatch rule alert h, ?_, ?_⟩
  · intro hl hann
    exact (checkRule_ok_true_iff rmatch rule alert h).mpr
      ⟨by simp [mapCond, hl], by simp [mapCond, hann]⟩
  · intro alert2 hl ha
    obtain ⟨b, hb⟩ := checkRule_isOk rmatch rule alert h
    obtain ⟨b2, hb2⟩ := checkRule_isOk rmatch rule alert2 h
    have hiff := checkRule_ok_true_iff rmatch rule alert h
    have hiff2 := checkRule_ok_true_iff rmatch rule alert2 h
    have hcond : ruleCond rmatch rule alert2 ↔ ruleCond rmatch rule alert :=
      and_congr
        (mapCond_congr rmatch alert.labels alert2.labels rule.labels hl)
        (mapCond_congr rmatch alert.annotations alert2.annotations
          rule.annotations ha)
    simp only [hb, Except.ok.injEq] at hiff
    simp only [hb2, Except.ok.injEq] at hiff2
    have hbt : (b2 = true) ↔ (b = true) :=
      hiff2.trans (hcond.trans hiff.symm)
    have hbb : b2 = b := by cases b2 <;> cases b <;> simp_all
    rw [hb, hb2, hbb]

/-- Witness for C5: the characterization applied to a concrete matcher,
rule and alert, concluding that the rule matches the alert. -/
theorem checkRule_matches_characterization_witness :
    checkRule Fixtures.rm0 Fixtures.rule1 Fixtures.alert0
      = Except.ok true := by
  have h := checkRule_matches_characterization Fixtures.rm0 Fixtures.rule1
    Fixtures.alert0 (fun kp _ v => ⟨decide (kp.2 = v), rfl⟩)
  refine h.1.mpr ⟨?_, ?_⟩
  · intro kp hkp
    simp only [Fixtures.rule1, List.mem_singleton] at hkp
    subst hkp
    exact ⟨"NodeDown", rfl, congrArg Except.ok (by decide)⟩
  · intro kp hkp
    simp [Fixtures.rule1] at hkp

end AutohealProof.Matcher

namespace AutohealProof.Dispatch

/-- C1 counterexample: two rules are activated for the alert, the first
rule's template expansion fails, and `startHealing` then returns the error
without processing the second activated rule — its requested event never
appears in the trace. -/
theorem expansion_failure_stops_sibling_rules_cex :
    activatedRules Fixtures.rm0 [Fixtures.rule1, Fixtures.rule2]
        Fixtures.alert0 = [Fixtures.rule1, Fixtures.rule2] ∧
    startHealing Fixtures.rm0 Fixtures.failC () [Fixtures.rule1,
        Fixtures.rule2] Fixtures.alert0
      = ([Event.requested "AWXJobAction" "start-node" "NodeDown"], (),
          some "boom") ∧
    Event.requested "AWXJobAction" "open-ticket" "NodeDown" ∉
      (startHealing Fixtures.rm0 Fixtures.failC () [Fixtures.rule1,
        Fixtures.rule2] Fixtures.alert0).1 := by
  refine ⟨?_, ?_, ?_⟩ <;> decide

/-- C1 as amended: when `runRule` returns an error for the first activated
rule, the execution loop propagates it immediately — the result of
`runActivated` is exactly the failing rule's events, state and error, and
the remaining activated rules contribute nothing. -/
theorem runRule_error_stops_remaining_rules {σ : Type} (C : Collab σ)
    (s : σ) (r : Data.HealingRule) (rest : List Data.HealingRule)
    (alert : Data.Alert) (evs : List Event) (s1 : σ) (e : String)
    (h : runRule C s r alert = (evs, s1, some e)) :
    runActivated C s (r :: rest) alert = (evs, s1, some e) := by
  simp only [runActivated, h]

/-- Witness for the amended C1: with a failing expansion, running the two
activated rules stops after the first one. -/
theorem runRule_error_stops_remaining_rules_witness :
    runActivated Fixtures.failC () [Fixtures.rule1, Fixtures.rule2]
        Fixtures.alert0
      = ([Event.requested "AWXJobAction" "start-node" "NodeDown"], (),
          some "boom") :=
  runRule_error_stops_remaining_rules Fixtures.failC () Fixtures.rule1
    [Fixtures.rule2] Fixtures.alert0
    [Event.requested "AWXJobAction" "start-node" "NodeDown"] () "boom"
    (by decide)

/-- C6 counterexample: the requested counter is incremented even though
template expansion fails, refuting "incremented if and only if template
expansion succeeds". -/
theorem requested_counted_despite_expansion_failure_cex :
    Fixtures.failC.expand (Action.awxJob ⟨"Start node", ""⟩)
      = Except.error "boom" ∧
    runRule Fixtures.failC () Fixtures.rule1 Fixtures.alert0
      = ([Event.requested "AWXJobAction" "start-node" "NodeDown"], (),
          some "boom") ∧
    requestedCount
      (runRule Fixtures.failC () Fixtures.rule1 Fixtures.alert0).1 = 1 := by
  refine ⟨rfl, ?_, ?_⟩ <;> decide

/-- C6 as amended: `runRule` increments the requested counter exactly once
if and only if the rule carries an action, and the increment is the first
step — before template expansion and before the expiring-memory check — so
expansion-failing and throttled actions are both still counted. -/
theorem requested_iff_rule_has_action {σ : Type} (C : Collab σ) (s : σ)
    (rule : Data.HealingRule) (alert : Data.Alert) :
    (ruleAction rule = none → runRule C s rule alert = ([], s, none)) ∧
    ∀ a, ruleAction rule = some a →
      requestedCount (runRule C s rule alert).1 = 1 ∧
      (runRule C s rule alert).1.head? =
        some (Event.requested (actionTypeName a) rule.meta.name
          ((alert.labels.lookup "alertname").getD "")) := by
  constructor
  · intro h
    simp [runRule, h]
  · intro a ha
    simp only [runRule, ha]
    cases hExp : C.expand a with
    | error e => simp [requestedCount, isRequested]
    | ok ex =>
      cases hm : C.memHas s ex with
      | true => simp [hm, requestedCount, isRequested]
      | false => simp [hm, requestedCount, isRequested]

/-- C7: after a successful expansion, a memory hit makes `runRule` skip
both the runner and the memory `Add`, while a memory miss dispatches to
the runner and afterwards always records the expanded action in the
memory, for every runner outcome including an error. -/
theorem memory_gate_dispatch_and_add {σ : Type} (C : Collab σ) (s : σ)
    (rule : Data.HealingRule) (alert : Data.Alert)
    (action expanded : Action)
    (ha : ruleAction rule = some action)
    (he : C.expand action = Except.ok expanded) :
    (C.memHas s expanded = true →
      runRule C s rule alert =
        ([Event.requested (actionTypeName action) rule.meta.name
            ((alert.labels.lookup "alertname").getD ""),
          Event.memorySkip rule.meta.name], s, none)) ∧
    (C.memHas s expanded = false →
      runRule C s rule alert =
        ([Event.requested (actionTypeName action) rule.meta.name
            ((alert.labels.lookup "alertname").getD ""),
          Event.dispatched (C.runner expanded).isNone,
          Event.remembered expanded],
          C.memAdd s expanded, C.runner expanded)) := by
  constructor <;> intro hm <;> simp [runRule, ha, he, hm]

/-- Witness for C7: with an empty memory the expanded action is dispatched
and then remembered. -/
theorem memory_gate_dispatch_and_add_witness :
    runRule Fixtures.okC ([] : List Action) Fixtures.rule1 Fixtures.alert0
      = ([Event.requested "AWXJobAction" "start-node" "NodeDown",
          Event.dispatched true,
          Event.remembered (Action.awxJob ⟨"Start node", ""⟩)],
          [Action.awxJob ⟨"Start node", ""⟩], none) := by
  have h := memory_gate_dispatch_and_add Fixtures.okC ([] : List Action)
    Fixtures.rule1 Fixtures.alert0 (Action.awxJob ⟨"Start node", ""⟩)
    (Action.awxJob ⟨"Start node", ""⟩) rfl rfl
  exact h.2 rfl

end AutohealProof.Dispatch

namespace AutohealProof.RuleStore

theorem storeSet_lookup_self {R : Type} (c : List (String × R)) (n : String)
    (r : R) : (storeSet c n r).lookup n = some r := by
  induction c with
  | nil => simp [storeSet, List.lookup]
  | cons kv rest ih =>
    obtain ⟨k, v⟩ := kv
    by_cases hk : k = n
    · subst hk
      simp [storeSet, List.lookup]
    · have hb : (n == k) = false := beq_eq_false_iff_ne.mpr (Ne.symm hk)
      simp only [storeSet, if_neg hk, List.lookup, hb]
      exact ih

theorem storeSet_lookup_other {R : Type} (c : List (String × R))
    (n n' : String) (r : R) (h : n' ≠ n) :
    (storeSet c n r).lookup n' = c.lookup n' := by
  have hb : (n' == n) = false := beq_eq_false_iff_ne.mpr h
  induction c with
  | nil =>
    simp only [storeSet, List.lookup, hb]
  | cons kv rest ih =>
    obtain ⟨k, v⟩ := kv
    by_cases hk : k = n
    · subst hk
      simp only [storeSet, if_pos rfl, List.lookup, hb]
    · simp only [storeSet, if_neg hk, List.lookup]
      cases hk' : (n' == k) with
      | true => rfl
      | false => exact ih

/-- C10: `processAddedRule` inserts a rule whose name is absent, replaces
a stored rule whose resource version differs (leaving other names
untouched in both cases), leaves the cache unchanged when the stored
resource version is identical, and is therefore idempotent: applying the
same upsert twice equals applying it once. -/
theorem upsert_insert_replace_noop_idempotent
    (cache : List (String × Data.HealingRule)) (rule : Data.HealingRule) :
    (cache.lookup rule.meta.name = none →
      (processAddedRule cache rule).lookup rule.meta.name = some rule ∧
      ∀ n, n ≠ rule.meta.name →
        (processAddedRule cache rule).lookup n = cache.lookup n) ∧
    (∀ ex, cache.lookup rule.meta.name = some ex →
      rule.meta.resourceVersion ≠ ex.meta.resourceVersion →
        (processAddedRule cache rule).lookup rule.meta.name = some rule ∧
        ∀ n, n ≠ rule.meta.name →
          (processAddedRule cache rule).lookup n = cache.lookup n) ∧
    (∀ ex, cache.lookup rule.meta.name = some ex →
      rule.meta.resourceVersion = ex.meta.resourceVersion →
        processAddedRule cache rule = cache) ∧
    processAddedRule (processAddedRule cache rule) rule
      = processAddedRule cache rule := by
  refine ⟨?_, ?_, ?_, ?_⟩
  · intro h
    simp only [processAddedRule, h]
    exact ⟨storeSet_lookup_self cache rule.meta.name rule,
      fun n hn => storeSet_lookup_other cache rule.meta.name n rule hn⟩
  · intro ex hex hne
    simp only [processAddedRule, hex, if_pos hne]
    exact ⟨storeSet_lookup_self cache rule.meta.name rule,
      fun n hn => storeSet_lookup_other cache rule.meta.name n rule hn⟩
  · intro ex hex heq
    simp only [processAddedRule, hex]
    rw [if_neg (fun hcon => hcon heq)]
  · cases hx : cache.lookup rule.meta.name with
    | none =>
      simp only [processAddedRule, hx]
      simp [processAddedRule,
        storeSet_lookup_self cache rule.meta.name rule]
    | some ex =>
      by_cases hrv : rule.meta.resourceVersion ≠ ex.meta.resourceVersion
      · simp only [processAddedRule, hx, if_pos hrv]
        simp [processAddedRule,
          storeSet_lookup_self cache rule.meta.name rule]
      · simp only [processAddedRule, hx, if_neg hrv]

end AutohealProof.RuleStore

namespace AutohealProof.ObjTemplate

/-- C8: the claim says a successful `Process` leaves every reachable
exported string field holding its rendered text.  The code violates this
for struct fields: with a renderer that rewrites `"T"` to `"T!"`,
processing a pointer to a one-field struct succeeds (the string case
shadows the named error return) yet leaves the field at its original
value, because the struct case discards the processed value instead of
writing it back; the same renderer does rewrite a map entry, whose case
alone performs a write-back (`SetMapIndex`).  The source's own test
(src/unnamed/part_017, `testProcessStructInput`) expects the struct field
to be rewritten. -/
theorem process_discards_struct_field_text :
    Fixtures.render0 "T" = Except.ok "T!" ∧
    Process Fixtures.render0 (.ptrTo (.structv (.cons (.str "T") .nil)))
      = (.ptrTo (.structv (.cons (.str "T") .nil)), none) ∧
    Process Fixtures.render0 (.ptrTo (.mapv (.cons "k" (.str "T") .nil)))
      = (.ptrTo (.mapv (.cons "k" (.str "T!") .nil)), none) :=
  ⟨rfl, rfl, rfl⟩

end AutohealProof.ObjTemplate
